import Mathlib

/-!
A verification development for the task API of this repository: an Express
application over an in-memory SQLite database (`src/app.js`), exposing
create / get / list / update / toggle / delete / reorder operations on a
`tasks` table.  The handlers are embedded shallowly: the database is a list
of rows in rowid (insertion) order, each handler is a pure function from
the store and the request data to the next store, the produced row and an
optional error, and the SQL `ORDER BY` of the list endpoint is modelled by
the set of row orders it admits.  Timestamps (`CURRENT_TIMESTAMP`) are an
explicit `now` argument.
-/

namespace TodoApi

/-- Whitespace characters removed by JavaScript `String.prototype.trim`,
modelled for the ASCII range. -/
def jsWs (c : Char) : Bool :=
  c = ' ' || c = '\t' || c = '\n' || c = '\r' || c.toNat = 11 || c.toNat = 12

/-- Drop the trailing run of characters satisfying `p`. -/
def trimEndChars (p : Char → Bool) (l : List Char) : List Char :=
  (l.reverse.dropWhile p).reverse

/-- Drop the leading and the trailing runs of characters satisfying `p`. -/
def trimChars (p : Char → Bool) (l : List Char) : List Char :=
  trimEndChars p (l.dropWhile p)

/-- JavaScript `String.prototype.trim`, applied by the create and update
handlers to `title`. -/
def jsTrim (s : String) : String := ⟨trimChars jsWs s.data⟩

/-- Value of a run of decimal digit characters. -/
def digitsToNat (l : List Char) : Nat :=
  l.foldl (fun acc c => acc * 10 + (c.toNat - 48)) 0

/-- JavaScript `parseInt`: skip leading whitespace and an optional sign, then
take the longest leading run of decimal digits; `NaN` (here `none`) exactly
when that run is empty.  The handlers use it only inside
`isNaN(parseInt(id))` guards.  (The hexadecimal `0x` form is not modelled.) -/
def jsParseInt (s : String) : Option Int :=
  let l := s.data.dropWhile jsWs
  let sign : Int := match l with | '-' :: _ => -1 | _ => 1
  let l' := match l with | '-' :: t => t | '+' :: t => t | _ => l
  let ds := l'.takeWhile Char.isDigit
  if ds.isEmpty then none else some (sign * (digitsToNat ds : Int))

/-- SQLite's text-to-number coercion applied when a TEXT parameter is compared
with the INTEGER `id` column (`... WHERE id = ?` bound to the raw request
string): the whole string, up to surrounding whitespace, must be a well-formed
integer literal, otherwise the comparison matches no row. -/
def sqliteTextToInt (s : String) : Option Int :=
  let l := s.data.dropWhile jsWs
  let sign : Int := match l with | '-' :: _ => -1 | _ => 1
  let l' := match l with | '-' :: t => t | '+' :: t => t | _ => l
  let ds := l'.takeWhile Char.isDigit
  let rest := (l'.drop ds.length).dropWhile jsWs
  if ds.isEmpty || !rest.isEmpty then none else some (sign * (digitsToNat ds : Int))

/-- ASCII upcase of one character, as JavaScript `toUpperCase` acts on the
ASCII range. -/
def upChar (c : Char) : Char :=
  if decide ('a' ≤ c) && decide (c ≤ 'z') then Char.ofNat (c.toNat - 32) else c

/-- JavaScript `String.prototype.toUpperCase` (ASCII range), used by the list
handler on the `order` query parameter. -/
def jsToUpper (s : String) : String := ⟨s.data.map upChar⟩

/-- Lexicographic comparison of character lists; on the strings stored by this
application it agrees with SQLite's BINARY collation (byte order of UTF-8
agrees with code point order). -/
def lexLe : List Char → List Char → Bool
  | [], _ => true
  | _ :: _, [] => false
  | a :: as, b :: bs => if a = b then lexLe as bs else decide (a < b)

/-- String comparison used for the TEXT sort keys. -/
def strLe (a b : String) : Bool := lexLe a.data b.data

/-- A row of the `tasks` table (`src/app.js`): INTEGER PRIMARY KEY
AUTOINCREMENT `id`, TEXT `title`, nullable TEXT `description` and `due_date`,
INTEGER `completed` (always written as 0/1, modelled as `Bool`), INTEGER
`sort_order`, TIMESTAMP texts `created_at` and `updated_at`. -/
structure Task where
  id : Nat
  title : String
  description : Option String
  due_date : Option String
  completed : Bool
  sort_order : Int
  created_at : String
  updated_at : String
deriving DecidableEq, Repr

/-- The database state: the rows of `tasks` in rowid (insertion) order,
plus the next AUTOINCREMENT id. -/
structure Store where
  tasks : List Task
  nextId : Nat
deriving DecidableEq, Repr

/-- The two error kinds of the task handlers: HTTP 400 (validation) and
HTTP 404 (not found). -/
inductive ApiError
  | validation
  | notFound
deriving DecidableEq, Repr

/-- `SELECT * FROM tasks WHERE id = ?` with the raw id string of the request
bound to the parameter. -/
def dbGetTask (s : Store) (idStr : String) : Option Task :=
  match sqliteTextToInt idStr with
  | none => none
  | some n => s.tasks.find? (fun t => (t.id : Int) == n)

/-- GET `/api/tasks/:id` (lines 169-188): 400 when `isNaN(parseInt(id))`,
404 when the lookup misses, otherwise the row. -/
def getTask (s : Store) (idStr : String) : Option Task × Option ApiError :=
  if (jsParseInt idStr).isNone then (none, some .validation)
  else
    match dbGetTask s idStr with
    | none => (none, some .notFound)
    | some t => (some t, none)

/-- Request body of POST `/api/tasks`.  The outer `Option` is presence of the
field in the JSON body; for `description` and `due_date` the inner `Option`
is SQL NULL. -/
structure CreateBody where
  title : Option String
  description : Option (Option String)
  due_date : Option (Option String)
  completed : Option Bool
deriving DecidableEq, Repr

/-- One step of the SQL `MAX` aggregate over `sort_order`. -/
def maxStep (acc : Option Int) (t : Task) : Option Int :=
  match acc with
  | none => some t.sort_order
  | some m => some (max m t.sort_order)

/-- `SELECT MAX(sort_order) as max FROM tasks`: NULL on an empty table. -/
def maxSortOrder (s : Store) : Option Int := s.tasks.foldl maxStep none

/-- POST `/api/tasks` (lines 191-215): reject a missing or blank-after-trim
title with 400; otherwise insert the trimmed title, the defaulted fields and
`sort_order = (max || 0) + 1` (JavaScript `||`, which coincides with
`getD 0` because `max = 0` maps to `0` either way). -/
def createTask (s : Store) (b : CreateBody) (now : String) :
    Store × Option Task × Option ApiError :=
  match b.title with
  | none => (s, none, some .validation)
  | some ttl =>
    if jsTrim ttl = "" then (s, none, some .validation)
    else
      let so : Int := (maxSortOrder s).getD 0 + 1
      let t : Task :=
        { id := s.nextId
          title := jsTrim ttl
          description := b.description.getD (some "")
          due_date := b.due_date.getD none
          completed := b.completed.getD false
          sort_order := so
          created_at := now
          updated_at := now }
      ({ tasks := s.tasks ++ [t], nextId := s.nextId + 1 }, some t, none)

/-- Request body of PUT `/api/tasks/:id`; fields absent from the JSON body
are `none`. -/
structure UpdateBody where
  title : Option String
  description : Option (Option String)
  due_date : Option (Option String)
  completed : Option Bool
deriving DecidableEq, Repr

/-- The dynamically built `UPDATE tasks SET ...` of PUT `/api/tasks/:id`:
each supplied field is written (title trimmed, completed coerced to 0/1),
and `updated_at = CURRENT_TIMESTAMP` is always appended. -/
def applyPatch (t : Task) (b : UpdateBody) (now : String) : Task :=
  { t with
    title := match b.title with | none => t.title | some ttl => jsTrim ttl
    description := b.description.getD t.description
    due_date := b.due_date.getD t.due_date
    completed := b.completed.getD t.completed
    updated_at := now }

/-- Replace the row whose `id` equals `i` (the PRIMARY KEY makes it unique). -/
def replaceTask (s : Store) (i : Nat) (t' : Task) : Store :=
  { s with tasks := s.tasks.map (fun u => if u.id = i then t' else u) }

/-- PUT `/api/tasks/:id` (lines 218-269): 400 on a malformed id, 404 when the
row is missing, 400 when a supplied title is blank after trimming, otherwise
apply the patch and return the updated row. -/
def updateTask (s : Store) (idStr : String) (b : UpdateBody) (now : String) :
    Store × Option Task × Option ApiError :=
  if (jsParseInt idStr).isNone then (s, none, some .validation)
  else
    match dbGetTask s idStr with
    | none => (s, none, some .notFound)
    | some t =>
      if (match b.title with | some ttl => jsTrim ttl == "" | none => false) then
        (s, none, some .validation)
      else
        let t' := applyPatch t b now
        (replaceTask s t.id t', some t', none)

/-- PATCH `/api/tasks/:id/toggle` (lines 272-296): flip `completed`
(`task.completed ? 0 : 1`) and refresh `updated_at`. -/
def toggleTask (s : Store) (idStr : String) (now : String) :
    Store × Option Task × Option ApiError :=
  if (jsParseInt idStr).isNone then (s, none, some .validation)
  else
    match dbGetTask s idStr with
    | none => (s, none, some .notFound)
    | some t =>
      let t' := { t with completed := !t.completed, updated_at := now }
      (replaceTask s t.id t', some t', none)

/-- DELETE `/api/tasks/:id` (lines 299-324): hard delete of the matched row. -/
def deleteTask (s : Store) (idStr : String) : Store × Option ApiError :=
  if (jsParseInt idStr).isNone then (s, some .validation)
  else
    match dbGetTask s idStr with
    | none => (s, some .notFound)
    | some t => ({ s with tasks := s.tasks.filter (fun u => u.id != t.id) }, none)

/-- One entry of the reorder request body; either field may be absent. -/
structure Assignment where
  id : Option Int
  sort_order : Option Int
deriving DecidableEq, Repr

/-- The guard `if (id && sort_order !== undefined)` of the reorder loop
(`id` falsy also for the number 0). -/
def wfAssign (a : Assignment) : Bool :=
  (match a.id with | some n => n != 0 | none => false) && a.sort_order.isSome

/-- One `UPDATE tasks SET sort_order = ?, updated_at = CURRENT_TIMESTAMP
WHERE id = ?` of the reorder loop, without the guard. -/
def applyAssign (now : String) (s : Store) (a : Assignment) : Store :=
  { s with
    tasks := s.tasks.map (fun u =>
      if (u.id : Int) == a.id.getD 0 then
        { u with sort_order := a.sort_order.getD u.sort_order, updated_at := now }
      else u) }

/-- One iteration of the reorder loop, guard included. -/
def applyAssignChecked (now : String) (s : Store) (a : Assignment) : Store :=
  if wfAssign a then applyAssign now s a else s

/-- PUT `/api/tasks/reorder` (lines 123-144): 400 when the body has no array
or an empty one; otherwise run the loop over all entries. -/
def reorderTasks (s : Store) (body : Option (List Assignment)) (now : String) :
    Store × Option ApiError :=
  match body with
  | none => (s, some .validation)
  | some l =>
    if l.isEmpty then (s, some .validation)
    else (l.foldl (applyAssignChecked now) s, none)

/-- The `validSortFields` whitelist of GET `/api/tasks`. -/
def validSortFields : List String :=
  ["created_at", "due_date", "completed", "sort_order", "title"]

/-- `validSortFields.includes(sortBy) ? sortBy : 'created_at'`, with the
destructuring default `'created_at'` for an absent parameter. -/
def resolveField (sortBy : Option String) : String :=
  let sb := sortBy.getD "created_at"
  if sb ∈ validSortFields then sb else "created_at"

/-- `validOrders.includes(order.toUpperCase()) ? ... : 'DESC'`, with the
destructuring default `'DESC'` for an absent parameter. -/
def resolveDir (order : Option String) : String :=
  let o := jsToUpper (order.getD "DESC")
  if o ∈ ["ASC", "DESC"] then o else "DESC"

/-- The five sortable columns. -/
inductive SortKey
  | created_at
  | due_date
  | completed
  | sort_order
  | title
deriving DecidableEq, Repr

/-- Column named by a resolved sort-field string. -/
def keyOf : String → SortKey
  | "due_date" => .due_date
  | "completed" => .completed
  | "sort_order" => .sort_order
  | "title" => .title
  | _ => .created_at

/-- SQLite ordering of a nullable TEXT column, ascending: NULL sorts before
every non-NULL value. -/
def optStrLe : Option String → Option String → Bool
  | none, _ => true
  | some _, none => false
  | some a, some b => strLe a b

/-- SQLite's ascending comparison on each sortable column. -/
def keyLeAsc : SortKey → Task → Task → Bool
  | .created_at, a, b => strLe a.created_at b.created_at
  | .due_date, a, b => optStrLe a.due_date b.due_date
  | .completed, a, b => !a.completed || b.completed
  | .sort_order, a, b => decide (a.sort_order ≤ b.sort_order)
  | .title, a, b => strLe a.title b.title

/-- Comparison under the resolved direction string (DESC flips the order). -/
def keyLe (k : SortKey) (dirStr : String) (a b : Task) : Bool :=
  if dirStr = "ASC" then keyLeAsc k a b else keyLeAsc k b a

/-- The outputs `SELECT * FROM tasks ORDER BY f d` may produce: some order of
all rows of the table that is non-strictly sorted on the named column in the
named direction.  The query of GET `/api/tasks` names no secondary sort key,
so the relative order of rows with equal key values is not specified by it;
accordingly the embedding keeps the whole set of admitted outputs. -/
@[reducible] def listAdmits (s : Store) (sortBy order : Option String) (out : List Task) : Prop :=
  out.Perm s.tasks ∧
  out.Pairwise (fun a b => keyLe (keyOf (resolveField sortBy)) (resolveDir order) a b = true)

/-- Insertion of an element into a sorted list under a boolean comparison. -/
def insertLe (le : α → α → Bool) (a : α) : List α → List α
  | [] => [a]
  | b :: t => if le a b then a :: b :: t else b :: insertLe le a t

/-- Insertion sort: an executable sorted permutation. -/
def isort (le : α → α → Bool) : List α → List α
  | [] => []
  | a :: t => insertLe le a (isort le t)

/-- An executable refinement of GET `/api/tasks`: one concrete output among
those the SQL query admits. -/
def listImpl (s : Store) (sortBy order : Option String) : List Task :=
  isort (keyLe (keyOf (resolveField sortBy)) (resolveDir order)) s.tasks

/-- Two rows carry equal values of the sort key `k`. -/
@[reducible] def sameKey (k : SortKey) (a b : Task) : Prop :=
  keyLeAsc k a b = true ∧ keyLeAsc k b a = true

/-- Rows with equal sort-key values appear in ascending-id order. -/
@[reducible] def tiesAscById (k : SortKey) (out : List Task) : Prop :=
  out.Pairwise (fun a b => sameKey k a b → a.id < b.id)

/-- No persisted row has an empty or whitespace-only title. -/
@[reducible] def TitlesOk (s : Store) : Prop := ∀ t ∈ s.tasks, jsTrim t.title ≠ ""

/-- The seed data inserted at startup (lines 48-60): three sample tasks with
ids 1-3 and `sort_order` 0-2, stamped with the startup time `t0`. -/
def initStore (t0 : String) : Store :=
  { tasks :=
      [ { id := 1, title := "Complete project documentation"
          description := some "Write comprehensive docs for the TODO app"
          due_date := some "2025-12-30", completed := false, sort_order := 0
          created_at := t0, updated_at := t0 }
      , { id := 2, title := "Review pull requests"
          description := some "Check pending PRs on GitHub"
          due_date := some "2025-12-23", completed := false, sort_order := 1
          created_at := t0, updated_at := t0 }
      , { id := 3, title := "Team meeting"
          description := some "Weekly sync with the team"
          due_date := some "2025-12-22", completed := true, sort_order := 2
          created_at := t0, updated_at := t0 } ]
    nextId := 4 }

/-- Fixture: two tasks with equal `sort_order`, ids 1 and 2. -/
def tieT1 : Task :=
  { id := 1, title := "First", description := none, due_date := none
    completed := false, sort_order := 5, created_at := "t0", updated_at := "t0" }

/-- Fixture: the second task of the tie pair. -/
def tieT2 : Task :=
  { id := 2, title := "Second", description := none, due_date := none
    completed := false, sort_order := 5, created_at := "t0", updated_at := "t0" }

/-- Fixture: a store holding the tie pair. -/
def tieStore : Store := { tasks := [tieT1, tieT2], nextId := 3 }

/-- Fixture: tasks with due dates NULL, 2025-12-25 and 2025-12-30. -/
def dueStore : Store :=
  { tasks :=
      [ { id := 1, title := "NoDue", description := none, due_date := none
          completed := false, sort_order := 0, created_at := "t0", updated_at := "t0" }
      , { id := 2, title := "Christmas", description := none, due_date := some "2025-12-25"
          completed := false, sort_order := 1, created_at := "t0", updated_at := "t0" }
      , { id := 3, title := "Later", description := none, due_date := some "2025-12-30"
          completed := false, sort_order := 2, created_at := "t0", updated_at := "t0" } ]
    nextId := 4 }

/-- Fixture: a single incomplete task with id 1. -/
def soloTask : Task :=
  { id := 1, title := "Solo", description := none, due_date := none
    completed := false, sort_order := 0, created_at := "t0", updated_at := "t0" }

/-- Fixture: a store holding only `soloTask`. -/
def soloStore : Store := { tasks := [soloTask], nextId := 2 }

/-- Fixture: a store holding a task whose id is 12. -/
def twelveStore : Store :=
  { tasks :=
      [ { id := 12, title := "Twelve", description := none, due_date := none
          completed := false, sort_order := 0, created_at := "t0", updated_at := "t0" } ]
    nextId := 13 }

/-- Spec-side notion (interface table of the design document): an id string is
well-formed exactly when the whole string is parseable as the integer
identifier type. -/
def specIntParseable (s : String) : Bool :=
  let l := match s.data with | '-' :: t => t | '+' :: t => t | l => l
  !l.isEmpty && l.all Char.isDigit

/-- One mutating API call, with arbitrary request data and timestamp. -/
inductive Step : Store → Store → Prop
  | create (s : Store) (b : CreateBody) (now : String) : Step s (createTask s b now).1
  | update (s : Store) (idStr : String) (b : UpdateBody) (now : String) :
      Step s (updateTask s idStr b now).1
  | toggle (s : Store) (idStr : String) (now : String) : Step s (toggleTask s idStr now).1
  | del (s : Store) (idStr : String) : Step s (deleteTask s idStr).1
  | reorder (s : Store) (body : Option (List Assignment)) (now : String) :
      Step s (reorderTasks s body now).1

/-- Store states reachable from the seeded startup state through the API. -/
inductive Reachable : Store → Prop
  | init (t0 : String) : Reachable (initStore t0)
  | step {s s' : Store} : Reachable s → Step s s' → Reachable s'

/-! ### List and trim lemmas -/

theorem dropWhile_dropWhile_self (p : α → Bool) (l : List α) :
    (l.dropWhile p).dropWhile p = l.dropWhile p := by
  induction l with
  | nil => rfl
  | cons a t ih =>
    cases ha : p a with
    | true => simp [List.dropWhile_cons, ha, ih]
    | false => simp [List.dropWhile_cons, ha]

theorem head?_dropWhile_false (p : α → Bool) :
    ∀ (l : List α) (a : α), (l.dropWhile p).head? = some a → p a = false := by
  intro l
  induction l with
  | nil => intro a h; simp at h
  | cons b t ih =>
    intro a h
    rw [List.dropWhile_cons] at h
    cases hb : p b with
    | true => rw [if_pos hb] at h; exact ih a h
    | false =>
      rw [if_neg (by simp [hb])] at h
      simp at h
      rw [← h]
      exact hb

theorem exists_append_dropWhile (p : α → Bool) (l : List α) :
    ∃ u, l = u ++ l.dropWhile p := by
  induction l with
  | nil => exact ⟨[], rfl⟩
  | cons a t ih =>
    cases ha : p a with
    | false => exact ⟨[], by simp [List.dropWhile_cons, ha]⟩
    | true =>
      obtain ⟨u, hu⟩ := ih
      refine ⟨a :: u, ?_⟩
      simpa [List.dropWhile_cons, ha] using hu

theorem dropWhile_eq_self_of_head? (p : α → Bool) (l : List α)
    (h : ∀ a, l.head? = some a → p a = false) : l.dropWhile p = l := by
  cases l with
  | nil => rfl
  | cons a t => simp [List.dropWhile_cons, h a rfl]

theorem trimChars_idem (p : Char → Bool) (l : List Char) :
    trimChars p (trimChars p l) = trimChars p l := by
  have hA := dropWhile_dropWhile_self p
  set m := l.dropWhile p with hm
  have hDm : m.dropWhile p = m := hA l
  have hrRev : (trimEndChars p m).reverse = m.reverse.dropWhile p := by
    simp [trimEndChars]
  have hSplit : ∃ w, m = trimEndChars p m ++ w := by
    obtain ⟨u, hu⟩ := exists_append_dropWhile p m.reverse
    refine ⟨u.reverse, ?_⟩
    have := congrArg List.reverse hu
    simpa [trimEndChars] using this
  have hHead : ∀ a, (trimEndChars p m).head? = some a → p a = false := by
    intro a ha
    obtain ⟨w, hw⟩ := hSplit
    have hmHead : m.head? = some a := by
      cases hE : trimEndChars p m with
      | nil => rw [hE] at ha; simp at ha
      | cons x r =>
        rw [hE] at ha
        simp at ha
        rw [hw, hE, ← ha]
        simp
    exact head?_dropWhile_false p l a hmHead
  have hDr : (trimEndChars p m).dropWhile p = trimEndChars p m :=
    dropWhile_eq_self_of_head? p _ hHead
  have hEr : trimEndChars p (trimEndChars p m) = trimEndChars p m := by
    have hfix : (trimEndChars p m).reverse.dropWhile p = (trimEndChars p m).reverse := by
      rw [hrRev, hA]
    show ((trimEndChars p m).reverse.dropWhile p).reverse = trimEndChars p m
    rw [hfix, List.reverse_reverse]
  show trimEndChars p ((trimEndChars p m).dropWhile p) = trimEndChars p m
  rw [hDr, hEr]

theorem jsTrim_idem (s : String) : jsTrim (jsTrim s) = jsTrim s :=
  congrArg String.mk (trimChars_idem jsWs s.data)

theorem jsTrim_jsTrim_ne (s : String) (h : jsTrim s ≠ "") : jsTrim (jsTrim s) ≠ "" := by
  rw [jsTrim_idem]; exact h

/-! ### Comparator lemmas -/

theorem lexLe_total : ∀ (a b : List Char), (lexLe a b || lexLe b a) = true := by
  intro a
  induction a with
  | nil => intro b; simp [lexLe]
  | cons x xs ih =>
    intro b
    cases b with
    | nil => simp [lexLe]
    | cons y ys =>
      by_cases hxy : x = y
      · subst hxy
        simpa [lexLe] using ih ys
      · rcases lt_or_gt_of_ne hxy with h | h
        · simp [lexLe, hxy, h]
        · simp [lexLe, hxy, Ne.symm hxy, h]

theorem lexLe_trans :
    ∀ (a b c : List Char), lexLe a b = true → lexLe b c = true → lexLe a c = true := by
  intro a
  induction a with
  | nil => intro b c _ _; rfl
  | cons x xs ih =>
    intro b c h1 h2
    cases b with
    | nil => simp [lexLe] at h1
    | cons y ys =>
      cases c with
      | nil => simp [lexLe] at h2
      | cons z zs =>
        by_cases hxy : x = y
        · subst hxy
          by_cases hyz : x = z
          · subst hyz
            simp [lexLe] at h1 h2 ⊢
            exact ih ys zs h1 h2
          · simp [lexLe, hyz] at h1 h2 ⊢
            exact h2
        · by_cases hyz : y = z
          · subst hyz
            simp [lexLe, hxy] at h1 ⊢
            exact h1
          · simp [lexLe, hxy, hyz] at h1 h2
            have hxz : x < z := lt_trans h1 h2
            simp [lexLe, ne_of_lt hxz, hxz]

theorem optStrLe_total : ∀ (a b : Option String), (optStrLe a b || optStrLe b a) = true := by
  intro a b
  cases a with
  | none => simp [optStrLe]
  | some x =>
    cases b with
    | none => simp [optStrLe]
    | some y => simpa [optStrLe, strLe] using lexLe_total x.data y.data

theorem optStrLe_trans :
    ∀ (a b c : Option String),
      optStrLe a b = true → optStrLe b c = true → optStrLe a c = true := by
  intro a b c h1 h2
  cases a with
  | none => rfl
  | some x =>
    cases b with
    | none => simp [optStrLe] at h1
    | some y =>
      cases c with
      | none => simp [optStrLe] at h2
      | some z =>
        simp [optStrLe, strLe] at h1 h2 ⊢
        exact lexLe_trans x.data y.data z.data h1 h2

theorem keyLeAsc_total (k : SortKey) : ∀ a b, (keyLeAsc k a b || keyLeAsc k b a) = true := by
  intro a b
  cases k with
  | created_at => simpa [keyLeAsc, strLe] using lexLe_total a.created_at.data b.created_at.data
  | due_date => exact optStrLe_total a.due_date b.due_date
  | completed => cases ha : a.completed <;> cases hb : b.completed <;> simp [keyLeAsc, ha, hb]
  | sort_order =>
    rcases le_total a.sort_order b.sort_order with h | h <;> simp [keyLeAsc, h]
  | title => simpa [keyLeAsc, strLe] using lexLe_total a.title.data b.title.data

theorem keyLeAsc_trans (k : SortKey) :
    ∀ a b c, keyLeAsc k a b = true → keyLeAsc k b c = true → keyLeAsc k a c = true := by
  intro a b c h1 h2
  cases k with
  | created_at =>
    simp [keyLeAsc, strLe] at h1 h2 ⊢
    exact lexLe_trans _ _ _ h1 h2
  | due_date => exact optStrLe_trans _ _ _ h1 h2
  | completed =>
    cases ha : a.completed <;> cases hc : c.completed <;>
      cases hb : b.completed <;> simp [keyLeAsc, ha, hb, hc] at h1 h2 ⊢
  | sort_order =>
    simp [keyLeAsc] at h1 h2 ⊢
    exact le_trans h1 h2
  | title =>
    simp [keyLeAsc, strLe] at h1 h2 ⊢
    exact lexLe_trans _ _ _ h1 h2

theorem keyLe_total (k : SortKey) (d : String) :
    ∀ a b, (keyLe k d a b || keyLe k d b a) = true := by
  intro a b
  by_cases hd : d = "ASC"
  · simpa [keyLe, hd] using keyLeAsc_total k a b
  · simpa [keyLe, hd] using keyLeAsc_total k b a

theorem keyLe_trans (k : SortKey) (d : String) :
    ∀ a b c, keyLe k d a b = true → keyLe k d b c = true → keyLe k d a c = true := by
  intro a b c h1 h2
  by_cases hd : d = "ASC" <;> simp [keyLe, hd] at h1 h2 ⊢
  · exact keyLeAsc_trans k a b c h1 h2
  · exact keyLeAsc_trans k c b a h2 h1

/-! ### Insertion sort lemmas -/

theorem insertLe_perm (le : α → α → Bool) (a : α) :
    ∀ l : List α, (insertLe le a l).Perm (a :: l) := by
  intro l
  induction l with
  | nil => exact List.Perm.refl _
  | cons b t ih =>
    by_cases h : le a b = true
    · simp [insertLe, h]
    · simp only [insertLe, h, if_false]
      exact (ih.cons b).trans (List.Perm.swap a b t)

theorem isort_perm (le : α → α → Bool) : ∀ l : List α, (isort le l).Perm l := by
  intro l
  induction l with
  | nil => exact List.Perm.refl _
  | cons a t ih => exact (insertLe_perm le a (isort le t)).trans (ih.cons a)

theorem mem_insertLe (le : α → α → Bool) (a x : α) (l : List α) :
    x ∈ insertLe le a l ↔ x = a ∨ x ∈ l := by
  rw [(insertLe_perm le a l).mem_iff, List.mem_cons]

theorem pairwise_insertLe (le : α → α → Bool)
    (htr : ∀ a b c, le a b = true → le b c = true → le a c = true)
    (hto : ∀ a b, (le a b || le b a) = true)
    (a : α) : ∀ l : List α, l.Pairwise (fun x y => le x y = true) →
      (insertLe le a l).Pairwise (fun x y => le x y = true) := by
  intro l
  induction l with
  | nil => intro _; simp [insertLe]
  | cons b t ih =>
    intro h
    rw [List.pairwise_cons] at h
    obtain ⟨hb, ht⟩ := h
    by_cases hab : le a b = true
    · simp only [insertLe, hab, if_true]
      refine List.Pairwise.cons ?_ (List.Pairwise.cons hb ht)
      intro x hx
      rcases List.mem_cons.mp hx with rfl | hx
      · exact hab
      · exact htr a b x hab (hb x hx)
    · have hba : le b a = true := by
        have := hto a b
        simpa [hab] using this
      simp only [insertLe, hab, if_false]
      refine List.Pairwise.cons ?_ (ih ht)
      intro x hx
      rcases (mem_insertLe le a x t).mp hx with rfl | hx
      · exact hba
      · exact hb x hx

theorem pairwise_isort (le : α → α → Bool)
    (htr : ∀ a b c, le a b = true → le b c = true → le a c = true)
    (hto : ∀ a b, (le a b || le b a) = true) :
    ∀ l : List α, (isort le l).Pairwise (fun x y => le x y = true) := by
  intro l
  induction l with
  | nil => simp [isort]
  | cons a t ih => exact pairwise_insertLe le htr hto a (isort le t) ih

/-- The executable list refinement produces one of the outputs the SQL query
admits: a permutation of the table, sorted on the resolved key. -/
theorem listImpl_admits (s : Store) (sortBy order : Option String) :
    listAdmits s sortBy order (listImpl s sortBy order) := by
  constructor
  · exact isort_perm _ s.tasks
  · exact pairwise_isort _
      (keyLe_trans (keyOf (resolveField sortBy)) (resolveDir order))
      (keyLe_total (keyOf (resolveField sortBy)) (resolveDir order)) s.tasks

/-! ### Store operation lemmas -/

theorem getLast?_of_strict_max (R : α → α → Prop) :
    ∀ (l : List α), l.Pairwise R → ∀ x, x ∈ l → (∀ y ∈ l, y = x ∨ ¬ R x y) →
      l.getLast? = some x := by
  intro l
  induction l with
  | nil => intro _ x hx _; simp at hx
  | cons a t ih =>
    intro hp x hx hstrict
    cases t with
    | nil =>
      simp at hx
      simp [hx]
    | cons b u =>
      rw [List.getLast?_cons_cons]
      rw [List.pairwise_cons] at hp
      obtain ⟨ha, hp'⟩ := hp
      rcases List.mem_cons.mp hx with rfl | hx'
      · rcases hstrict b (by simp) with hba | hnb
        · exact ih hp' x (by simp [hba])
            (fun y hy => hstrict y (List.mem_cons_of_mem _ hy))
        · exact absurd (ha b (by simp)) hnb
      · exact ih hp' x hx' (fun y hy => hstrict y (List.mem_cons_of_mem _ hy))

theorem foldl_maxStep_some :
    ∀ (l : List Task) (m : Int), ∃ m', l.foldl maxStep (some m) = some m' ∧ m ≤ m' := by
  intro l
  induction l with
  | nil => intro m; exact ⟨m, rfl, le_refl m⟩
  | cons t r ih =>
    intro m
    obtain ⟨m', hm', hle⟩ := ih (max m t.sort_order)
    exact ⟨m', by simpa [maxStep] using hm', le_trans (le_max_left _ _) hle⟩

theorem mem_le_foldl_maxStep :
    ∀ (l : List Task) (acc : Option Int) (u : Task), u ∈ l →
      ∃ m', l.foldl maxStep acc = some m' ∧ u.sort_order ≤ m' := by
  intro l
  induction l with
  | nil => intro acc u hu; simp at hu
  | cons t r ih =>
    intro acc u hu
    rcases List.mem_cons.mp hu with rfl | hu'
    · have hc : ∃ c, maxStep acc u = some c ∧ u.sort_order ≤ c := by
        cases acc with
        | none => exact ⟨u.sort_order, rfl, le_refl _⟩
        | some m => exact ⟨max m u.sort_order, rfl, le_max_right _ _⟩
      obtain ⟨c, hc1, hc2⟩ := hc
      obtain ⟨m', hm', hle⟩ := foldl_maxStep_some r c
      refine ⟨m', ?_, le_trans hc2 hle⟩
      simpa [hc1] using hm'
    · exact ih (maxStep acc t) u hu'

theorem le_maxSortOrder (s : Store) (u : Task) (h : u ∈ s.tasks) :
    u.sort_order ≤ (maxSortOrder s).getD 0 := by
  obtain ⟨m', hm', hle⟩ := mem_le_foldl_maxStep s.tasks none u h
  rw [maxSortOrder, hm']
  exact hle

theorem find?_map_replace (n : Int) (t' : Task) :
    ∀ (l : List Task) (t : Task),
      l.find? (fun u => (u.id : Int) == n) = some t → t'.id = t.id →
      (l.map (fun u => if u.id = t.id then t' else u)).find? (fun u => (u.id : Int) == n)
        = some t' := by
  intro l
  induction l with
  | nil => intro t h _; simp at h
  | cons a r ih =>
    intro t h hid
    have hpt : ((t.id : Int) == n) = true := by
      have := List.find?_some h
      simpa using this
    by_cases hpa : ((a.id : Int) == n) = true
    · rw [List.find?_cons_of_pos _ (by simpa using hpa)] at h
      have hat : a = t := by simpa using h
      subst hat
      rw [List.map_cons, if_pos rfl]
      rw [List.find?_cons_of_pos]
      simpa [hid] using hpa
    · rw [List.find?_cons_of_neg _ (by simpa using hpa)] at h
      have hne : ¬ a.id = t.id := by
        intro hEq
        apply hpa
        rw [hEq]
        exact hpt
      rw [List.map_cons, if_neg hne]
      rw [List.find?_cons_of_neg _ (by simpa using hpa)]
      exact ih t h hid

theorem dbGetTask_mem (s : Store) (idStr : String) (t : Task)
    (h : dbGetTask s idStr = some t) : t ∈ s.tasks := by
  unfold dbGetTask at h
  cases hn : sqliteTextToInt idStr with
  | none => rw [hn] at h; simp at h
  | some n =>
    rw [hn] at h
    exact List.mem_of_find?_eq_some h

theorem dbGetTask_replace (s : Store) (idStr : String) (t t' : Task)
    (h : dbGetTask s idStr = some t) (hid : t'.id = t.id) :
    dbGetTask (replaceTask s t.id t') idStr = some t' := by
  unfold dbGetTask at h ⊢
  cases hn : sqliteTextToInt idStr with
  | none => rw [hn] at h; simp at h
  | some n =>
    rw [hn] at h
    show (List.find? _ (replaceTask s t.id t').tasks) = some t'
    simp only [replaceTask]
    exact find?_map_replace n t' s.tasks t h hid

theorem foldl_checked_eq_filter (now : String) :
    ∀ (l : List Assignment) (s : Store),
      l.foldl (applyAssignChecked now) s = (l.filter wfAssign).foldl (applyAssign now) s := by
  intro l
  induction l with
  | nil => intro s; rfl
  | cons a r ih =>
    intro s
    by_cases h : wfAssign a = true
    · simp [List.filter_cons, h, applyAssignChecked, ih]
    · simp [List.filter_cons, h, applyAssignChecked, ih]

/-! ### Title invariant preservation -/

theorem titlesOk_create (s : Store) (b : CreateBody) (now : String)
    (h : TitlesOk s) : TitlesOk (createTask s b now).1 := by
  cases hb : b.title with
  | none => simpa [createTask, hb] using h
  | some ttl =>
    by_cases hks : jsTrim ttl = ""
    · simpa [createTask, hb, hks] using h
    · intro t ht
      simp only [createTask, hb, hks, if_false] at ht
      rcases List.mem_append.mp ht with hmem | hmem
      · exact h t hmem
      · simp only [List.mem_singleton] at hmem
        subst hmem
        exact jsTrim_jsTrim_ne ttl hks

theorem titlesOk_replace (s : Store) (i : Nat) (t' : Task)
    (h : TitlesOk s) (h' : jsTrim t'.title ≠ "") : TitlesOk (replaceTask s i t') := by
  intro u hu
  simp only [replaceTask] at hu
  rcases List.mem_map.mp hu with ⟨v, hv, hveq⟩
  by_cases hvid : v.id = i
  · rw [← hveq, if_pos hvid]
    exact h'
  · rw [← hveq, if_neg hvid]
    exact h v hv

theorem titlesOk_update (s : Store) (idStr : String) (b : UpdateBody) (now : String)
    (h : TitlesOk s) : TitlesOk (updateTask s idStr b now).1 := by
  unfold updateTask
  by_cases hp : (jsParseInt idStr).isNone = true
  · simpa [hp] using h
  · simp only [hp, if_false]
    cases hg : dbGetTask s idStr with
    | none => simpa using h
    | some t =>
      by_cases hbt : (match b.title with | some ttl => jsTrim ttl == "" | none => false) = true
      · simpa [hbt] using h
      · simp only [hbt, if_false]
        refine titlesOk_replace s t.id _ h ?_
        show jsTrim (applyPatch t b now).title ≠ ""
        unfold applyPatch
        cases hbti : b.title with
        | none =>
          simpa using h t (dbGetTask_mem s idStr t hg)
        | some ttl =>
          rw [hbti] at hbt
          have hne : jsTrim ttl ≠ "" := by simpa using hbt
          simpa using jsTrim_jsTrim_ne ttl hne

theorem titlesOk_toggle (s : Store) (idStr : String) (now : String)
    (h : TitlesOk s) : TitlesOk (toggleTask s idStr now).1 := by
  unfold toggleTask
  by_cases hp : (jsParseInt idStr).isNone = true
  · simpa [hp] using h
  · simp only [hp, if_false]
    cases hg : dbGetTask s idStr with
    | none => simpa using h
    | some t =>
      refine titlesOk_replace s t.id _ h ?_
      simpa using h t (dbGetTask_mem s idStr t hg)

theorem titlesOk_delete (s : Store) (idStr : String)
    (h : TitlesOk s) : TitlesOk (deleteTask s idStr).1 := by
  unfold deleteTask
  by_cases hp : (jsParseInt idStr).isNone = true
  · simpa [hp] using h
  · simp only [hp, if_false]
    cases hg : dbGetTask s idStr with
    | none => simpa using h
    | some t =>
      intro u hu
      simp only at hu
      exact h u (List.mem_of_mem_filter hu)

theorem titlesOk_applyAssignChecked (now : String) (s : Store) (a : Assignment)
    (h : TitlesOk s) : TitlesOk (applyAssignChecked now s a) := by
  unfold applyAssignChecked applyAssign
  by_cases hw : wfAssign a = true
  · simp only [hw, if_true]
    intro u hu
    rcases List.mem_map.mp hu with ⟨v, hv, hveq⟩
    by_cases hvid : ((v.id : Int) == a.id.getD 0) = true
    · rw [← hveq, if_pos hvid]
      simpa using h v hv
    · rw [← hveq, if_neg hvid]
      exact h v hv
  · simpa [hw] using h

theorem titlesOk_foldl_assign (now : String) :
    ∀ (l : List Assignment) (s : Store), TitlesOk s →
      TitlesOk (l.foldl (applyAssignChecked now) s) := by
  intro l
  induction l with
  | nil => intro s h; exact h
  | cons a r ih =>
    intro s h
    exact ih (applyAssignChecked now s a) (titlesOk_applyAssignChecked now s a h)

theorem titlesOk_reorder (s : Store) (body : Option (List Assignment)) (now : String)
    (h : TitlesOk s) : TitlesOk (reorderTasks s body now).1 := by
  cases body with
  | none => exact h
  | some l =>
    by_cases hl : l.isEmpty = true
    · simpa [reorderTasks, hl] using h
    · simp only [reorderTasks, hl, if_false]
      exact titlesOk_foldl_assign now l s h

theorem titlesOk_init (t0 : String) : TitlesOk (initStore t0) := by
  intro t ht
  simp only [initStore, List.mem_cons, List.mem_singleton, List.not_mem_nil, or_false] at ht
  rcases ht with rfl | rfl | rfl
  · exact (by decide : jsTrim "Complete project documentation" ≠ "")
  · exact (by decide : jsTrim "Review pull requests" ≠ "")
  · exact (by decide : jsTrim "Team meeting" ≠ "")

theorem titlesOk_reachable : ∀ s, Reachable s → TitlesOk s := by
  intro s h
  induction h with
  | init t0 => exact titlesOk_init t0
  | step _ hs ih =>
    cases hs with
    | create b now => exact titlesOk_create _ b now ih
    | update idStr b now => exact titlesOk_update _ idStr b now ih
    | toggle idStr now => exact titlesOk_toggle _ idStr now ih
    | del idStr => exact titlesOk_delete _ idStr ih
    | reorder body now => exact titlesOk_reorder _ body now ih

/-! ### Claims -/

/-- Claim C10: for every store state, a reorder call whose assignment sequence
is empty or absent fails with a ValidationError and leaves the store — and so
every task's `sort_order` — unchanged. -/
theorem c10_reorder_rejects_empty_batch (s : Store) (now : String) :
    reorderTasks s none now = (s, some .validation) ∧
    reorderTasks s (some []) now = (s, some .validation) :=
  ⟨rfl, rfl⟩

/-- Claim C2: a reorder call with a non-empty assignment sequence succeeds and
applies exactly its well-formed assignments as one unit — the resulting store
is the fold of the well-formed sub-list over the store — and whenever any
reorder call reports an error the store is exactly as it was before the
call. -/
theorem c2_reorder_wellformed_all_or_nothing (s : Store) (l : List Assignment)
    (now : String) (hl : l ≠ []) :
    (reorderTasks s (some l) now).2 = none ∧
    (reorderTasks s (some l) now).1 = (l.filter wfAssign).foldl (applyAssign now) s ∧
    (∀ body, (reorderTasks s body now).2 ≠ none → (reorderTasks s body now).1 = s) := by
  have hne : l.isEmpty = false := by
    cases l with
    | nil => exact absurd rfl hl
    | cons a r => rfl
  refine ⟨?_, ?_, ?_⟩
  · simp [reorderTasks, hne]
  · simp only [reorderTasks, hne, Bool.false_eq_true, if_false]
    exact foldl_checked_eq_filter now l s
  · intro body hb
    cases body with
    | none => rfl
    | some l' =>
      by_cases h' : l'.isEmpty = true
      · simp [reorderTasks, h']
      · exact absurd (by simp [reorderTasks, h']) hb

/-- Witness for C2: one well-formed assignment against the one-task store. -/
theorem c2_reorder_wellformed_all_or_nothing_witness :
    (reorderTasks soloStore (some [⟨some 1, some 7⟩]) "r1").2 = none ∧
    (reorderTasks soloStore (some [⟨some 1, some 7⟩]) "r1").1
      = ([⟨some 1, some 7⟩].filter wfAssign).foldl (applyAssign "r1") soloStore :=
  ⟨(c2_reorder_wellformed_all_or_nothing soloStore [⟨some 1, some 7⟩] "r1" (by decide)).1,
   (c2_reorder_wellformed_all_or_nothing soloStore [⟨some 1, some 7⟩] "r1" (by decide)).2.1⟩

/-- Claim C6, counterexample: the id string "12abc" is not parseable as the
integer identifier type, yet get, update, toggle and delete answer NotFound,
not ValidationError — the guard `isNaN(parseInt(id))` accepts any string with
a digit prefix, and the subsequent lookup matches no row. -/
theorem c6_malformed_id_counterexample :
    specIntParseable "12abc" = false ∧
    (getTask twelveStore "12abc").2 = some .notFound ∧
    (updateTask twelveStore "12abc" ⟨some "New", none, none, none⟩ "u").2.2 = some .notFound ∧
    (toggleTask twelveStore "12abc" "u").2.2 = some .notFound ∧
    (deleteTask twelveStore "12abc").2 = some .notFound := by
  decide

/-- Claim C6 as amended: an id string in which `parseInt` finds no integer at
all makes get, update, toggle and delete fail with a ValidationError and leave
the store unchanged; when `parseInt` does find one, get, toggle and delete
never answer ValidationError — a digit-prefixed non-integer id such as
"12abc" falls through to the lookup and yields NotFound instead. -/
theorem c6_malformed_id_amended (s : Store) (idStr : String) (b : UpdateBody)
    (now : String) :
    (jsParseInt idStr = none →
      getTask s idStr = (none, some .validation) ∧
      updateTask s idStr b now = (s, none, some .validation) ∧
      toggleTask s idStr now = (s, none, some .validation) ∧
      deleteTask s idStr = (s, some .validation)) ∧
    (jsParseInt idStr ≠ none →
      (getTask s idStr).2 ≠ some .validation ∧
      (toggleTask s idStr now).2.2 ≠ some .validation ∧
      (deleteTask s idStr).2 ≠ some .validation) := by
  constructor
  · intro h
    have hp : (jsParseInt idStr).isNone = true := by simp [h]
    refine ⟨?_, ?_, ?_, ?_⟩ <;> simp [getTask, updateTask, toggleTask, deleteTask, hp]
  · intro h
    have hp : (jsParseInt idStr).isNone = false := by
      cases hj : jsParseInt idStr with
      | none => exact absurd hj h
      | some n => rfl
    refine ⟨?_, ?_, ?_⟩ <;>
      simp only [getTask, toggleTask, deleteTask, hp, Bool.false_eq_true, if_false] <;>
      cases hg : dbGetTask s idStr <;> simp

/-- Witness for C6 as amended, at the id string "abc". -/
theorem c6_malformed_id_amended_witness :
    getTask soloStore "abc" = (none, some .validation) ∧
    deleteTask soloStore "abc" = (soloStore, some .validation) ∧
    (getTask soloStore "12abc").2 ≠ some .validation :=
  ⟨((c6_malformed_id_amended soloStore "abc" ⟨none, none, none, none⟩ "u").1 (by decide)).1,
   ((c6_malformed_id_amended soloStore "abc" ⟨none, none, none, none⟩ "u").1 (by decide)).2.2.2,
   ((c6_malformed_id_amended soloStore "12abc" ⟨none, none, none, none⟩ "u").2 (by decide)).1⟩

/-- Claim C9: the list operation never fails: an unrecognized sort key
resolves to creation time, an unrecognized direction resolves to descending,
and the call returns an ordered task sequence — the executable refinement is
an output the query admits. -/
theorem c9_list_degrades_gracefully (s : Store) (sortBy order : Option String) :
    (∀ sb, sortBy = some sb → sb ∉ validSortFields → resolveField sortBy = "created_at") ∧
    (∀ o, order = some o → jsToUpper o ∉ ["ASC", "DESC"] → resolveDir order = "DESC") ∧
    listAdmits s sortBy order (listImpl s sortBy order) := by
  refine ⟨?_, ?_, listImpl_admits s sortBy order⟩
  · intro sb hsb hnot
    subst hsb
    simp [resolveField, hnot]
  · intro o ho hnot
    subst ho
    simp [resolveDir, hnot]

/-- Witness for C9 at the unrecognized key "priority" and direction "down". -/
theorem c9_list_degrades_gracefully_witness :
    resolveField (some "priority") = "created_at" ∧
    resolveDir (some "down") = "DESC" ∧
    listAdmits (initStore "T0") (some "priority") (some "down")
      (listImpl (initStore "T0") (some "priority") (some "down")) :=
  ⟨(c9_list_degrades_gracefully (initStore "T0") (some "priority") (some "down")).1
      "priority" rfl (by decide),
   (c9_list_degrades_gracefully (initStore "T0") (some "priority") (some "down")).2.1
      "down" rfl (by decide),
   (c9_list_degrades_gracefully (initStore "T0") (some "priority") (some "down")).2.2⟩

/-- Claim C3: under ascending due-date sort every output the query admits
places each task with NULL `due_date` before every task with a non-NULL one,
and on due dates {NULL, 2025-12-25, 2025-12-30} the executable refinement
returns exactly the order [NULL, 2025-12-25, 2025-12-30]. -/
theorem c3_nulls_first_due_date_asc :
    (∀ (s : Store) (out : List Task), listAdmits s (some "due_date") (some "ASC") out →
      out.Pairwise (fun a b => b.due_date = none → a.due_date = none)) ∧
    (listImpl dueStore (some "due_date") (some "ASC")).map (fun t => t.due_date)
      = [none, some "2025-12-25", some "2025-12-30"] := by
  constructor
  · intro s out h
    refine h.2.imp ?_
    intro a b hle hbnone
    have h1 : keyOf (resolveField (some "due_date")) = SortKey.due_date := by decide
    have h2 : resolveDir (some "ASC") = "ASC" := by decide
    rw [h1, h2] at hle
    cases had : a.due_date with
    | none => rfl
    | some x =>
      rw [keyLe, if_pos rfl] at hle
      rw [show keyLeAsc SortKey.due_date a b = optStrLe a.due_date b.due_date from rfl] at hle
      rw [had, hbnone] at hle
      simp [optStrLe] at hle
  · decide

/-- Witness for C3: the refinement's output on `dueStore` is admitted and is
nulls-first. -/
theorem c3_nulls_first_due_date_asc_witness :
    listAdmits dueStore (some "due_date") (some "ASC")
      (listImpl dueStore (some "due_date") (some "ASC")) ∧
    (listImpl dueStore (some "due_date") (some "ASC")).Pairwise
      (fun a b => b.due_date = none → a.due_date = none) :=
  ⟨by decide, c3_nulls_first_due_date_asc.1 dueStore _ (by decide)⟩

/-- Claim C1, counterexample: the list query orders only by the primary sort
key and names no id tie-break, so over the two equal-key tasks of `tieStore`
it admits the id-descending output [tieT2, tieT1] — violating ascending-id
tie order — and admits two distinct outputs for the same task set, so the
order is not determined by the query. -/
theorem c1_tie_break_counterexample :
    listAdmits tieStore (some "sort_order") (some "ASC") [tieT2, tieT1] ∧
    ¬ tiesAscById .sort_order [tieT2, tieT1] ∧
    listAdmits tieStore (some "sort_order") (some "ASC") [tieT1, tieT2] ∧
    [tieT1, tieT2] ≠ [tieT2, tieT1] := by
  decide

/-- Claim C1 as amended: for every task set and sort parameters the list
operation returns some permutation of the tasks that is non-strictly sorted
on the resolved key — the executable stable refinement being one admitted
output, and every admitted output a permutation of it — but the relative
order of equal-key tasks (and with it repeat-call determinism on ties) is not
fixed by the query. -/
theorem c1_sorted_permutation_amended (s : Store) (sortBy order : Option String) :
    listAdmits s sortBy order (listImpl s sortBy order) ∧
    ∀ out, listAdmits s sortBy order out → out.Perm (listImpl s sortBy order) := by
  refine ⟨listImpl_admits s sortBy order, ?_⟩
  intro out h
  exact h.1.trans (listImpl_admits s sortBy order).1.symm

/-- Witness for C1 as amended, on the tie store. -/
theorem c1_sorted_permutation_amended_witness :
    listAdmits tieStore (some "sort_order") (some "ASC")
      (listImpl tieStore (some "sort_order") (some "ASC")) ∧
    ([tieT2, tieT1]).Perm (listImpl tieStore (some "sort_order") (some "ASC")) :=
  ⟨(c1_sorted_permutation_amended tieStore (some "sort_order") (some "ASC")).1,
   (c1_sorted_permutation_amended tieStore (some "sort_order") (some "ASC")).2
      [tieT2, tieT1] (by decide)⟩

/-- Claim C4: a successful create assigns the new task a `sort_order` of the
current maximum plus one (the `MAX` of an empty table counting as 0, so the
first task gets 1), strictly above every existing task's, so every output the
ascending manual-order query admits over the new store ends with the new
task. -/
theorem c4_create_sorts_last (s : Store) (b : CreateBody) (now : String)
    (ttl : String) (hb : b.title = some ttl) (hne : jsTrim ttl ≠ "") :
    ∃ t, (createTask s b now).2.1 = some t ∧
      t.sort_order = (maxSortOrder s).getD 0 + 1 ∧
      (s.tasks = [] → t.sort_order = 1) ∧
      (∀ u ∈ s.tasks, u.sort_order < t.sort_order) ∧
      (createTask s b now).1.tasks = s.tasks ++ [t] ∧
      (∀ out, listAdmits (createTask s b now).1 (some "sort_order") (some "ASC") out →
        out.getLast? = some t) := by
  refine ⟨{ id := s.nextId, title := jsTrim ttl, description := b.description.getD (some "")
            due_date := b.due_date.getD none, completed := b.completed.getD false
            sort_order := (maxSortOrder s).getD 0 + 1, created_at := now, updated_at := now },
          ?_, rfl, ?_, ?_, ?_, ?_⟩
  · simp [createTask, hb, hne]
  · intro hEmpty
    show (maxSortOrder s).getD 0 + 1 = 1
    simp [maxSortOrder, hEmpty]
  · intro u hu
    show u.sort_order < (maxSortOrder s).getD 0 + 1
    exact lt_of_le_of_lt (le_maxSortOrder s u hu) (lt_add_one _)
  · simp [createTask, hb, hne]
  · intro out hadm
    obtain ⟨hperm, hsorted⟩ := hadm
    have htasks : (createTask s b now).1.tasks = s.tasks ++
        [{ id := s.nextId, title := jsTrim ttl, description := b.description.getD (some "")
           due_date := b.due_date.getD none, completed := b.completed.getD false
           sort_order := (maxSortOrder s).getD 0 + 1, created_at := now, updated_at := now }] := by
      simp [createTask, hb, hne]
    have h1 : keyOf (resolveField (some "sort_order")) = SortKey.sort_order := by decide
    have h2 : resolveDir (some "ASC") = "ASC" := by decide
    rw [h1, h2] at hsorted
    set tNew : Task :=
      { id := s.nextId, title := jsTrim ttl, description := b.description.getD (some "")
        due_date := b.due_date.getD none, completed := b.completed.getD false
        sort_order := (maxSortOrder s).getD 0 + 1, created_at := now, updated_at := now }
    have hmem : tNew ∈ out := by
      rw [hperm.mem_iff, htasks]
      exact List.mem_append_right _ (List.mem_singleton.mpr rfl)
    refine getLast?_of_strict_max _ out hsorted tNew hmem ?_
    intro y hy
    have hy' : y ∈ s.tasks ++ [tNew] := by
      rw [← htasks]
      exact hperm.mem_iff.mp hy
    rcases List.mem_append.mp hy' with hys | hyt
    · right
      have hlt : y.sort_order < tNew.sort_order :=
        lt_of_le_of_lt (le_maxSortOrder s y hys) (lt_add_one _)
      show ¬ keyLe SortKey.sort_order "ASC" tNew y = true
      rw [keyLe, if_pos rfl]
      show ¬ decide (tNew.sort_order ≤ y.sort_order) = true
      simpa using not_le.mpr hlt
    · left
      simpa using hyt

/-- Witness for C4: create against the one-task store (current max 0, so the
new task gets `sort_order` 1... the fixture's max is 0, giving 1). -/
theorem c4_create_sorts_last_witness :
    ∃ t, (createTask soloStore ⟨some "New", none, none, none⟩ "c1").2.1 = some t ∧
      t.sort_order = (maxSortOrder soloStore).getD 0 + 1 ∧
      (soloStore.tasks = [] → t.sort_order = 1) ∧
      (∀ u ∈ soloStore.tasks, u.sort_order < t.sort_order) ∧
      (createTask soloStore ⟨some "New", none, none, none⟩ "c1").1.tasks
        = soloStore.tasks ++ [t] ∧
      (∀ out, listAdmits (createTask soloStore ⟨some "New", none, none, none⟩ "c1").1
          (some "sort_order") (some "ASC") out → out.getLast? = some t) :=
  c4_create_sorts_last soloStore ⟨some "New", none, none, none⟩ "c1" "New" rfl (by decide)

/-- Claim C5, counterexample: toggling twice does restore `completed`, but the
row is not otherwise unchanged: each toggle refreshes `updated_at`, so after
two toggles at a later timestamp the row differs from the original in
`updated_at`. -/
theorem c5_toggle_twice_counterexample :
    (toggleTask (toggleTask soloStore "1" "u1").1 "1" "u2").2.1
      = some { soloTask with updated_at := "u2" } ∧
    ({ soloTask with updated_at := "u2" } : Task).completed = soloTask.completed ∧
    ({ soloTask with updated_at := "u2" } : Task) ≠ soloTask := by
  decide

/-- Claim C5 as amended: for every existing task, toggling twice restores
`completed` and leaves every field other than `updated_at` unchanged, while
`updated_at` is refreshed to the second toggle's timestamp. -/
theorem c5_toggle_twice_amended (s : Store) (idStr : String) (now1 now2 : String)
    (t : Task) (hp : (jsParseInt idStr).isNone = false)
    (hg : dbGetTask s idStr = some t) :
    (toggleTask (toggleTask s idStr now1).1 idStr now2).2.1
      = some { t with updated_at := now2 } := by
  have h1 : toggleTask s idStr now1
      = (replaceTask s t.id { t with completed := !t.completed, updated_at := now1 },
         some { t with completed := !t.completed, updated_at := now1 }, none) := by
    unfold toggleTask
    rw [hp]
    simp [hg]
  rw [h1]
  have hg2 : dbGetTask
      (replaceTask s t.id { t with completed := !t.completed, updated_at := now1 }) idStr
      = some { t with completed := !t.completed, updated_at := now1 } :=
    dbGetTask_replace s idStr t _ hg rfl
  unfold toggleTask
  rw [hp]
  simp [hg2, Bool.not_not]

/-- Witness for C5 as amended, on the one-task store. -/
theorem c5_toggle_twice_amended_witness :
    (toggleTask (toggleTask soloStore "1" "a1").1 "1" "a2").2.1
      = some { soloTask with updated_at := "a2" } :=
  c5_toggle_twice_amended soloStore "1" "a1" "a2" soloTask (by decide) (by decide)

/-- Claim C7: for an existing task and a patch whose supplied title (if any)
is non-blank after trimming, update succeeds and modifies exactly the supplied
fields: each supplied field takes the supplied value (title trimmed), each
field not supplied keeps its value, id / created_at / sort_order are
untouched, and `updated_at` is refreshed to the call time no matter which
fields were supplied. -/
theorem c7_update_patch_frame (s : Store) (idStr : String) (b : UpdateBody)
    (now : String) (t : Task) (hp : (jsParseInt idStr).isNone = false)
    (hg : dbGetTask s idStr = some t)
    (hti : ∀ ttl, b.title = some ttl → jsTrim ttl ≠ "") :
    (updateTask s idStr b now).2.2 = none ∧
    (updateTask s idStr b now).2.1 = some (applyPatch t b now) ∧
    (updateTask s idStr b now).1 = replaceTask s t.id (applyPatch t b now) ∧
    (applyPatch t b now).id = t.id ∧
    (applyPatch t b now).created_at = t.created_at ∧
    (applyPatch t b now).sort_order = t.sort_order ∧
    (b.title = none → (applyPatch t b now).title = t.title) ∧
    (∀ ttl, b.title = some ttl → (applyPatch t b now).title = jsTrim ttl) ∧
    (b.description = none → (applyPatch t b now).description = t.description) ∧
    (∀ d, b.description = some d → (applyPatch t b now).description = d) ∧
    (b.due_date = none → (applyPatch t b now).due_date = t.due_date) ∧
    (∀ d, b.due_date = some d → (applyPatch t b now).due_date = d) ∧
    (b.completed = none → (applyPatch t b now).completed = t.completed) ∧
    (∀ c, b.completed = some c → (applyPatch t b now).completed = c) ∧
    (applyPatch t b now).updated_at = now := by
  have hguard : (match b.title with
      | some ttl => jsTrim ttl == "" | none => false) = false := by
    cases hbt : b.title with
    | none => rfl
    | some ttl =>
      have := hti ttl hbt
      simpa using this
  have hrun : updateTask s idStr b now
      = (replaceTask s t.id (applyPatch t b now), some (applyPatch t b now), none) := by
    unfold updateTask
    rw [hp]
    simp [hg, hguard]
  refine ⟨by rw [hrun], by rw [hrun], by rw [hrun], rfl, rfl, rfl, ?_, ?_, ?_, ?_, ?_, ?_, ?_, ?_, rfl⟩
  · intro hbt; simp [applyPatch, hbt]
  · intro ttl hbt; simp [applyPatch, hbt]
  · intro hbd; simp [applyPatch, hbd]
  · intro d hbd; simp [applyPatch, hbd]
  · intro hbd; simp [applyPatch, hbd]
  · intro d hbd; simp [applyPatch, hbd]
  · intro hbc; simp [applyPatch, hbc]
  · intro c hbc; simp [applyPatch, hbc]

/-- Witness for C7: a patch supplying title, description and completed. -/
theorem c7_update_patch_frame_witness :
    (updateTask soloStore "1" ⟨some "  Z  ", some (some "d2"), none, some true⟩ "u7").2.1
      = some (applyPatch soloTask ⟨some "  Z  ", some (some "d2"), none, some true⟩ "u7") ∧
    (applyPatch soloTask ⟨some "  Z  ", some (some "d2"), none, some true⟩ "u7").title = "Z" ∧
    (applyPatch soloTask ⟨some "  Z  ", some (some "d2"), none, some true⟩ "u7").due_date
      = soloTask.due_date :=
  ⟨(c7_update_patch_frame soloStore "1" ⟨some "  Z  ", some (some "d2"), none, some true⟩
      "u7" soloTask (by decide) (by decide)
      (by intro ttl h; cases h; decide)).2.1,
   ((c7_update_patch_frame soloStore "1" ⟨some "  Z  ", some (some "d2"), none, some true⟩
      "u7" soloTask (by decide) (by decide)
      (by intro ttl h; cases h; decide)).2.2.2.2.2.2.2.1 "  Z  " rfl).trans (by decide),
   (c7_update_patch_frame soloStore "1" ⟨some "  Z  ", some (some "d2"), none, some true⟩
      "u7" soloTask (by decide) (by decide)
      (by intro ttl h; cases h; decide)).2.2.2.2.2.2.2.2.2.2.1 rfl⟩

/-- Claim C8: no reachable store state persists an empty or whitespace-only
title: every reachable store satisfies `TitlesOk`; create rejects a missing
or blank-after-trim title with a ValidationError and otherwise stores the
trimmed title (so title "  Task  " is stored as "Task"); and update rejects a
supplied blank title likewise, leaving the store unchanged. -/
theorem c8_no_blank_titles :
    (∀ s, Reachable s → TitlesOk s) ∧
    (∀ (s : Store) (b : CreateBody) (now : String),
      (b.title = none ∨ ∃ ttl, b.title = some ttl ∧ jsTrim ttl = "") →
      createTask s b now = (s, none, some .validation)) ∧
    (∀ (s : Store) (b : CreateBody) (now : String) (ttl : String),
      b.title = some ttl → jsTrim ttl ≠ "" →
      ∃ t, (createTask s b now).2.1 = some t ∧ t.title = jsTrim ttl) ∧
    (∀ (s : Store) (b : CreateBody) (now : String),
      b.title = some "  Task  " →
      ∃ t, (createTask s b now).2.1 = some t ∧ t.title = "Task") ∧
    (∀ (s : Store) (idStr : String) (b : UpdateBody) (now : String) (t : Task)
      (ttl : String), (jsParseInt idStr).isNone = false → dbGetTask s idStr = some t →
      b.title = some ttl → jsTrim ttl = "" →
      updateTask s idStr b now = (s, none, some .validation)) := by
  refine ⟨titlesOk_reachable, ?_, ?_, ?_, ?_⟩
  · intro s b now h
    rcases h with hnone | ⟨ttl, hsome, hblank⟩
    · simp [createTask, hnone]
    · simp [createTask, hsome, hblank]
  · intro s b now ttl hsome hblank
    exact ⟨{ id := s.nextId, title := jsTrim ttl
             description := b.description.getD (some ""), due_date := b.due_date.getD none
             completed := b.completed.getD false, sort_order := (maxSortOrder s).getD 0 + 1
             created_at := now, updated_at := now },
           by simp [createTask, hsome, hblank], rfl⟩
  · intro s b now hsome
    exact ⟨{ id := s.nextId, title := jsTrim "  Task  "
             description := b.description.getD (some ""), due_date := b.due_date.getD none
             completed := b.completed.getD false, sort_order := (maxSortOrder s).getD 0 + 1
             created_at := now, updated_at := now },
           by simp [createTask, hsome, (by decide : ¬ jsTrim "  Task  " = "")],
           (by decide : jsTrim "  Task  " = "Task")⟩
  · intro s idStr b now t ttl hp hg hsome hblank
    unfold updateTask
    rw [hp]
    simp [hg, hsome, hblank]

/-- Witness for C8: the seeded store is reachable and blank-title-free, and a
whitespace-only create is rejected unchanged. -/
theorem c8_no_blank_titles_witness :
    TitlesOk (initStore "T0") ∧
    createTask (initStore "T0") ⟨some "   ", none, none, none⟩ "c"
      = (initStore "T0", none, some .validation) :=
  ⟨c8_no_blank_titles.1 _ (Reachable.init "T0"),
   c8_no_blank_titles.2.1 _ _ _ (Or.inr ⟨"   ", rfl, by decide⟩)⟩

end TodoApi
